import Mathlib

/-!
# Verification of the omnirambles note/version/tag core

Shallow embedding of the backend logic of the omnirambles note-taking
application (`backend/src/notes.ts`, `backend/src/auth.ts`, schema
`backend/db/init.sql`), together with proofs settling the spec claims
about versioning, tagging, filtering and authentication lockout.

The relational store is modelled as lists of rows; every SQL statement of
the source is translated to a pure function on that state.  Multi-statement
transactions are modelled by returning the *original* state whenever any
statement fails (the `ROLLBACK` path of the source); statement failures
that the source can actually hit (foreign-key violations, injected storage
faults for the atomicity claim) are made explicit.
-/

namespace Omnirambles

/-- Row of the `notes` table (`id SERIAL, content TEXT, created_at, updated_at`). -/
structure NoteRow where
  id : Nat
  content : String
  created_at : Nat
  updated_at : Nat
  deriving Repr, DecidableEq

/-- Row of the `tags` table (`id SERIAL, name VARCHAR UNIQUE, source`). -/
structure TagRow where
  id : Nat
  name : String
  source : String
  deriving Repr, DecidableEq

/-- Row of the `note_tags` junction table (live note-to-tag links). -/
structure NoteTagRow where
  note_id : Nat
  tag_id : Nat
  deriving Repr, DecidableEq

/-- Row of the `note_versions` table (`id SERIAL, note_id, version, content, created_at`). -/
structure NoteVersionRow where
  id : Nat
  note_id : Nat
  version : Nat
  content : String
  created_at : Nat
  deriving Repr, DecidableEq

/-- Row of the `note_version_tags` junction table (per-version tag snapshots). -/
structure NoteVersionTagRow where
  note_version_id : Nat
  tag_id : Nat
  deriving Repr, DecidableEq

/-- The relational store of `init.sql`, plus the `SERIAL` counters and a
clock supplying `CURRENT_TIMESTAMP`. -/
structure DB where
  notes : List NoteRow
  tags : List TagRow
  note_tags : List NoteTagRow
  note_versions : List NoteVersionRow
  note_version_tags : List NoteVersionTagRow
  nextNoteId : Nat
  nextTagId : Nat
  nextNvId : Nat
  now : Nat
  deriving Repr, DecidableEq

/-- JavaScript's `String.prototype.toLowerCase()` (as applied to tag names
and emails by the source): lowercase every character. -/
def lowerStr (s : String) : String := String.mk (s.data.map Char.toLower)

/-- The freshly initialised database. -/
def emptyDB : DB :=
  { notes := [], tags := [], note_tags := [], note_versions := []
  , note_version_tags := [], nextNoteId := 1, nextTagId := 1, nextNvId := 1
  , now := 0 }

/-- `SELECT * FROM note_versions WHERE note_id = $1` (in table order). -/
def versionsOf (db : DB) (noteId : Nat) : List NoteVersionRow :=
  db.note_versions.filter (fun v => v.note_id == noteId)

/-- `SELECT COALESCE(MAX(version), 0) FROM note_versions WHERE note_id = $1`
(used by `updateNote` to compute the next version number). -/
def maxVersion0 (db : DB) (noteId : Nat) : Nat :=
  (versionsOf db noteId).foldr (fun v acc => max v.version acc) 0

/-- `COALESCE(MAX(nv.version), 1)`: the derived `current_version` column of
the read projections. -/
def currentVersionOf (db : DB) (noteId : Nat) : Nat :=
  if versionsOf db noteId = [] then 1 else maxVersion0 db noteId

/-- The distinct tags currently linked to a note (the `tags` JSON column of
the read projections). -/
def tagsOfNote (db : DB) (noteId : Nat) : List TagRow :=
  db.tags.filter (fun t =>
    db.note_tags.any (fun nt => nt.note_id == noteId && nt.tag_id == t.id))

/-- `EXISTS (SELECT 1 FROM notes WHERE id = $1)`: whether an insert
referencing `notes(id)` satisfies its foreign key. -/
def noteExists (db : DB) (noteId : Nat) : Bool :=
  db.notes.any (fun n => n.id == noteId)

/-- The `Note` object returned by the API (`types.ts` `Note`): the note row
plus the derived `current_version` and `tags` columns. -/
structure NoteProj where
  id : Nat
  content : String
  created_at : Nat
  updated_at : Nat
  current_version : Nat
  tags : List TagRow
  deriving Repr, DecidableEq

/-- `getNoteById` of `notes.ts`: the single-note read projection. -/
def getNoteById (db : DB) (id : Nat) : Option NoteProj :=
  match db.notes.find? (fun n => n.id == id) with
  | none => none
  | some n =>
    some { id := n.id, content := n.content, created_at := n.created_at
         , updated_at := n.updated_at
         , current_version := currentVersionOf db id
         , tags := tagsOfNote db id }

/-- `createNote` of `notes.ts`.  The two inserts run inside one
transaction; `f1`/`f2` inject a storage failure into the note insert and
the version insert respectively, in which case the `catch` branch issues
`ROLLBACK` and the original state is kept. -/
def createNote (f1 f2 : Bool) (db : DB) (content : String) :
    DB × Except Unit NoteProj :=
  if f1 then (db, .error ()) else
  let n : NoteRow :=
    { id := db.nextNoteId, content := content
    , created_at := db.now, updated_at := db.now }
  let db1 := { db with notes := db.notes ++ [n], nextNoteId := db.nextNoteId + 1 }
  if f2 then (db, .error ()) else
  let v : NoteVersionRow :=
    { id := db1.nextNvId, note_id := n.id, version := 1
    , content := content, created_at := db.now }
  let db2 := { db1 with note_versions := db1.note_versions ++ [v]
                      , nextNvId := db1.nextNvId + 1 }
  (db2, .ok { id := n.id, content := content, created_at := db.now
            , updated_at := db.now, current_version := 1, tags := [] })

/-- A `{ name, source }` element of `UpdateNoteRequest.tags`. -/
structure TagInput where
  name : String
  source : String
  deriving Repr, DecidableEq

/-- `UpdateNoteRequest` of `types.ts`: both fields optional. -/
structure UpdateNoteRequest where
  content : Option String := none
  tags : Option (List TagInput) := none
  deriving Repr, DecidableEq

/-- `INSERT INTO tags (name, source) VALUES ($1, $2) ON CONFLICT (name) DO
UPDATE SET name = EXCLUDED.name RETURNING *` with the name lowercased by
the caller: resolve-or-create against the *global* `UNIQUE (name)`
constraint of `init.sql`. -/
def upsertTag (db : DB) (name source : String) : DB × TagRow :=
  let lname := lowerStr name
  match db.tags.find? (fun t => t.name == lname) with
  | some t => (db, t)
  | none =>
    let t : TagRow := { id := db.nextTagId, name := lname, source := source }
    ({ db with tags := db.tags ++ [t], nextTagId := db.nextTagId + 1 }, t)

/-- `INSERT INTO note_tags (note_id, tag_id) VALUES ($1, $2) ON CONFLICT DO
NOTHING` (the caller has already checked the `notes` foreign key). -/
def linkNoteTag (db : DB) (noteId tagId : Nat) : DB :=
  if db.note_tags.any (fun nt => nt.note_id == noteId && nt.tag_id == tagId)
  then db
  else { db with note_tags := db.note_tags ++ [⟨noteId, tagId⟩] }

/-- `INSERT INTO note_version_tags (note_version_id, tag_id) SELECT $1,
tag_id FROM note_tags WHERE note_id = $2`: copy the live links onto the
new version row. -/
def copyTagsToVersion (db : DB) (nvId noteId : Nat) : DB :=
  let copied : List NoteVersionTagRow :=
    (db.note_tags.filter (fun nt => nt.note_id == noteId)).map
      (fun nt => ⟨nvId, nt.tag_id⟩)
  { db with note_version_tags := db.note_version_tags ++ copied }

/-- The `data.content !== undefined` branch of `updateNote`: compute
`MAX(version)+1`, update the live content (firing the `updated_at`
trigger), insert the new version row and copy the live tag links onto it.
The version insert violates its foreign key when the note does not exist,
failing the transaction. -/
def applyContentUpdate (db : DB) (id : Nat) (c : String) : Except Unit DB :=
  let newVersion := maxVersion0 db id + 1
  let db1 := { db with notes := db.notes.map (fun n =>
    if n.id == id then { n with content := c, updated_at := db.now } else n) }
  if noteExists db1 id then
    let nvRow : NoteVersionRow :=
      { id := db1.nextNvId, note_id := id, version := newVersion
      , content := c, created_at := db1.now }
    let db2 := { db1 with note_versions := db1.note_versions ++ [nvRow]
                        , nextNvId := db1.nextNvId + 1 }
    .ok (copyTagsToVersion db2 nvRow.id id)
  else .error ()

/-- The per-element body of the `data.tags !== undefined` loop of
`updateNote`: upsert the (lowercased) tag, then link it to the note; the
link insert violates its foreign key when the note does not exist. -/
def applyTags (db : DB) (noteId : Nat) : List TagInput → Except Unit DB
  | [] => .ok db
  | ti :: rest =>
    let db1 := (upsertTag db ti.name ti.source).1
    let tag := (upsertTag db ti.name ti.source).2
    if noteExists db1 noteId then
      applyTags (linkNoteTag db1 noteId tag.id) noteId rest
    else .error ()

/-- `DELETE FROM note_tags WHERE note_id = $1`. -/
def clearNoteTags (db : DB) (id : Nat) : DB :=
  { db with note_tags := db.note_tags.filter (fun nt => !(nt.note_id == id)) }

/-- `updateNote` of `notes.ts`: optional content update (which always
inserts a new version) followed by optional wholesale tag replacement,
inside one transaction; on any failure the original state is kept and the
error is re-thrown.  On success it re-reads the note via `getNoteById`. -/
def updateNote (db : DB) (id : Nat) (data : UpdateNoteRequest) :
    DB × Except Unit (Option NoteProj) :=
  let step1 : Except Unit DB :=
    match data.content with
    | some c => applyContentUpdate db id c
    | none => .ok db
  match step1 with
  | .error _ => (db, .error ())
  | .ok db1 =>
    match data.tags with
    | some l =>
      match applyTags (clearNoteTags db1 id) id l with
      | .error _ => (db, .error ())
      | .ok db2 => (db2, .ok (getNoteById db2 id))
    | none => (db1, .ok (getNoteById db1 id))

/-- `deleteNote` of `notes.ts`: `DELETE FROM notes WHERE id = $1`, with the
`ON DELETE CASCADE` clauses of the schema removing the note's versions,
live links and version links; returns whether a row was deleted. -/
def deleteNote (db : DB) (id : Nat) : DB × Bool :=
  let nvIds := (db.note_versions.filter (fun v => v.note_id == id)).map (·.id)
  ( { db with
      notes := db.notes.filter (fun n => !(n.id == id))
    , note_tags := db.note_tags.filter (fun nt => !(nt.note_id == id))
    , note_versions := db.note_versions.filter (fun v => !(v.note_id == id))
    , note_version_tags := db.note_version_tags.filter
        (fun x => !(nvIds.contains x.note_version_id)) }
  , noteExists db id )

/-- `addTagToNote` of `notes.ts`: upsert the (lowercased) tag and link it
to the note in one transaction; the link insert violates its foreign key
when the note does not exist, rolling everything back. -/
def addTagToNote (db : DB) (noteId : Nat) (tagName source : String) :
    DB × Except Unit (Option NoteProj) :=
  let (db1, tag) := upsertTag db tagName source
  if noteExists db1 noteId then
    let db2 := linkNoteTag db1 noteId tag.id
    (db2, .ok (getNoteById db2 noteId))
  else (db, .error ())

/-- `removeTagFromNote` of `notes.ts`: unconditional `DELETE FROM
note_tags WHERE note_id = $1 AND tag_id = $2`, then re-read. -/
def removeTagFromNote (db : DB) (noteId tagId : Nat) :
    DB × Option NoteProj :=
  let kept := db.note_tags.filter
    (fun nt => !(nt.note_id == noteId && nt.tag_id == tagId))
  let db1 := { db with note_tags := kept }
  (db1, getNoteById db1 noteId)

/-- `NoteFilters` of `types.ts`, with the defaults destructured at the top
of `getNotes`. -/
structure NoteFilters where
  tags : List String := []
  sortBy : String := "created_at"
  sortOrder : String := "desc"
  limit : Nat := 100
  offset : Nat := 0
  deriving Repr, DecidableEq

/-- The tag-filter predicate of `getNotes`: with no tag names the `WHERE`
clause is omitted; otherwise `n.id IN (SELECT nt.note_id FROM note_tags nt
JOIN tags t ON nt.tag_id = t.id WHERE t.name = ANY($1))`. -/
def matchesTagFilter (db : DB) (tagNames : List String) (n : NoteRow) : Bool :=
  tagNames.isEmpty ||
    db.note_tags.any (fun nt => nt.note_id == n.id &&
      db.tags.any (fun t => t.id == nt.tag_id && tagNames.contains t.name))

/-- The sort key of `ORDER BY n.${sortBy}`. -/
def sortKeyOf (sortBy : String) (n : NoteRow) : Nat :=
  if sortBy == "updated_at" then n.updated_at else n.created_at

/-- The comparison realised by `ORDER BY n.${sortBy} ${sortOrder}`: a
non-strict comparison on the chosen column only — the query has no
secondary sort key, so rows with equal keys may come back in any order. -/
def keyLe (sortBy sortOrder : String) (a b : NoteRow) : Bool :=
  if sortOrder == "asc" then sortKeyOf sortBy a ≤ sortKeyOf sortBy b
  else sortKeyOf sortBy b ≤ sortKeyOf sortBy a

/-- The results `getNotes` may return: some enumeration of the notes
passing the tag filter that is sorted by the chosen column in the chosen
direction (ties unconstrained), windowed by `LIMIT`/`OFFSET`. -/
def GetNotesResult (db : DB) (f : NoteFilters) (res : List NoteRow) : Prop :=
  ∃ full : List NoteRow,
    full.Perm (db.notes.filter (matchesTagFilter db f.tags)) ∧
    full.Pairwise (fun a b => keyLe f.sortBy f.sortOrder a b = true) ∧
    res = (full.drop f.offset).take f.limit

/-- Well-formedness of the store as maintained by the schema: `SERIAL`
counters are ahead of every row id, note ids are unique, and the foreign
keys of version and link rows point below the note counter. -/
def WF (db : DB) : Prop :=
  (∀ n ∈ db.notes, n.id < db.nextNoteId) ∧
  (db.notes.map (·.id)).Nodup ∧
  (∀ v ∈ db.note_versions, v.id < db.nextNvId ∧ v.note_id < db.nextNoteId) ∧
  (∀ nt ∈ db.note_tags, nt.note_id < db.nextNoteId) ∧
  (∀ x ∈ db.note_version_tags, x.note_version_id < db.nextNvId) ∧
  (∀ t ∈ db.tags, t.id < db.nextTagId) ∧
  (db.tags.map (·.id)).Nodup

instance (db : DB) : Decidable (WF db) := by
  unfold WF; infer_instance

-- ===========================================================================
-- Authentication layer (`backend/src/auth.ts`)
-- ===========================================================================

/-- `MAX_LOGIN_ATTEMPTS` (default 5). -/
def MAX_LOGIN_ATTEMPTS : Nat := 5

/-- `LOCKOUT_DURATION` in milliseconds (default 900000 = 15 minutes). -/
def LOCKOUT_DURATION : Nat := 900000

/-- Row of the `users` table. -/
structure UserRow where
  id : Nat
  email : String
  username : String
  password_hash : String
  created_at : Nat
  updated_at : Nat
  is_active : Bool
  failed_login_attempts : Nat
  locked_until : Option Nat
  last_login : Option Nat
  deriving Repr, DecidableEq

/-- The credential store: the `users` table plus the clock. -/
structure AuthDB where
  users : List UserRow
  now : Nat
  deriving Repr, DecidableEq

/-- `bcrypt.hash` modelled as an injective tagging of the password. -/
def hashPassword (password : String) : String :=
  "$2b$12$" ++ password

/-- `bcrypt.compare` modelled against `hashPassword`. -/
def comparePassword (password hash : String) : Bool :=
  hash == hashPassword password

/-- `SafeUser` of `types.ts`: the user row with `password_hash`,
`failed_login_attempts` and `locked_until` stripped (`sanitizeUser`). -/
structure SafeUser where
  id : Nat
  email : String
  username : String
  created_at : Nat
  updated_at : Nat
  is_active : Bool
  last_login : Option Nat
  deriving Repr, DecidableEq

/-- `sanitizeUser` of `auth.ts`. -/
def sanitizeUser (u : UserRow) : SafeUser :=
  { id := u.id, email := u.email, username := u.username
  , created_at := u.created_at, updated_at := u.updated_at
  , is_active := u.is_active, last_login := u.last_login }

/-- The failure modes of `authenticateUser` (thrown `Error`s). -/
inductive AuthError where
  | invalidCredentials
  | accountDisabled
  | accountLocked (minutesLeft : Nat)
  deriving Repr, DecidableEq

/-- `UPDATE users SET f = f(u) WHERE id = $1` helper. -/
def updateUser (db : AuthDB) (userId : Nat) (f : UserRow → UserRow) : AuthDB :=
  { db with users := db.users.map (fun u => if u.id == userId then f u else u) }

/-- `incrementFailedLoginAttempts` of `auth.ts`: bump the counter and read
it back (`RETURNING`); if it reached `MAX_LOGIN_ATTEMPTS`, set
`locked_until` to `now + LOCKOUT_DURATION` with a second `UPDATE`. -/
def incrementFailedLoginAttempts (db : AuthDB) (userId : Nat) : AuthDB :=
  let db1 := updateUser db userId (fun u =>
    { u with failed_login_attempts := u.failed_login_attempts + 1 })
  let attempts := match db1.users.find? (fun u => u.id == userId) with
    | some u => u.failed_login_attempts
    | none => 0
  if attempts ≥ MAX_LOGIN_ATTEMPTS then
    updateUser db1 userId (fun u =>
      { u with locked_until := some (db.now + LOCKOUT_DURATION) })
  else db1

/-- `Math.ceil((locked_until - Date.now()) / 60000)` on the model clock. -/
def minutesLeftOf (lockedUntil now : Nat) : Nat :=
  (lockedUntil - now + 59999) / 60000

/-- `authenticateUser` of `auth.ts`: look the user up by lowercased email,
reject disabled accounts, reject while a lockout window is active (before
even checking the password), count a failed attempt on mismatch, and on
success reset the counter, clear the lock and stamp `last_login`. -/
def authenticateUser (db : AuthDB) (email password : String) :
    AuthDB × Except AuthError SafeUser :=
  match db.users.find? (fun u => u.email == lowerStr email) with
  | none => (db, .error .invalidCredentials)
  | some user =>
    if !user.is_active then (db, .error .accountDisabled)
    else
      let verify : AuthDB × Except AuthError SafeUser :=
        if !comparePassword password user.password_hash then
          (incrementFailedLoginAttempts db user.id, .error .invalidCredentials)
        else
          ( updateUser db user.id (fun u =>
              { u with failed_login_attempts := 0, locked_until := none
                     , last_login := some db.now })
          , .ok (sanitizeUser user) )
      match user.locked_until with
      | some t =>
        if t > db.now then
          (db, .error (.accountLocked (minutesLeftOf t db.now)))
        else verify
      | none => verify

-- ===========================================================================
-- Frame lemmas about the tag-loop and content-update statements
-- ===========================================================================

/-- `upsertTag` touches only the `tags` table and its counter. -/
theorem upsertTag_frame (db : DB) (name source : String) :
    (upsertTag db name source).1.notes = db.notes ∧
    (upsertTag db name source).1.note_tags = db.note_tags ∧
    (upsertTag db name source).1.note_versions = db.note_versions ∧
    (upsertTag db name source).1.note_version_tags = db.note_version_tags ∧
    (upsertTag db name source).1.nextNoteId = db.nextNoteId ∧
    (upsertTag db name source).1.nextNvId = db.nextNvId ∧
    (upsertTag db name source).1.now = db.now := by
  unfold upsertTag
  rcases h : db.tags.find? (fun t => t.name == lowerStr name) with _ | t <;>
    simp [h]

/-- `linkNoteTag` touches only the `note_tags` table. -/
theorem linkNoteTag_frame (db : DB) (noteId tagId : Nat) :
    (linkNoteTag db noteId tagId).notes = db.notes ∧
    (linkNoteTag db noteId tagId).tags = db.tags ∧
    (linkNoteTag db noteId tagId).note_versions = db.note_versions ∧
    (linkNoteTag db noteId tagId).note_version_tags = db.note_version_tags ∧
    (linkNoteTag db noteId tagId).nextNoteId = db.nextNoteId ∧
    (linkNoteTag db noteId tagId).nextTagId = db.nextTagId ∧
    (linkNoteTag db noteId tagId).nextNvId = db.nextNvId ∧
    (linkNoteTag db noteId tagId).now = db.now := by
  unfold linkNoteTag
  split <;> simp

/-- The tag-replacement loop never touches notes, versions or version
links. -/
theorem applyTags_frame (noteId : Nat) (l : List TagInput) :
    ∀ db db', applyTags db noteId l = .ok db' →
      db'.notes = db.notes ∧
      db'.note_versions = db.note_versions ∧
      db'.note_version_tags = db.note_version_tags ∧
      db'.nextNoteId = db.nextNoteId ∧
      db'.nextNvId = db.nextNvId ∧
      db'.now = db.now := by
  induction l with
  | nil =>
    intro db db' h
    simp only [applyTags] at h
    cases h
    exact ⟨rfl, rfl, rfl, rfl, rfl, rfl⟩
  | cons ti rest ih =>
    intro db db' h
    simp only [applyTags] at h
    split at h
    · rename_i hex
      have h1 := upsertTag_frame db ti.name ti.source
      have h2 := linkNoteTag_frame (upsertTag db ti.name ti.source).1 noteId
        (upsertTag db ti.name ti.source).2.id
      have h3 := ih _ _ h
      refine ⟨?_, ?_, ?_, ?_, ?_, ?_⟩ <;>
        simp only [h3.1, h3.2.1, h3.2.2.1, h3.2.2.2.1, h3.2.2.2.2.1,
          h3.2.2.2.2.2, h2.1, h2.2.2.1, h2.2.2.2.1, h2.2.2.2.2.1,
          h2.2.2.2.2.2.2, h1.1, h1.2.2.1, h1.2.2.2.1, h1.2.2.2.2.1,
          h1.2.2.2.2.2.1, h1.2.2.2.2.2.2]
    · cases h

/-- The content-update that starts `updateNote` preserves note ids, so the
foreign-key check after it agrees with the one on the original state. -/
theorem noteExists_after_content (db : DB) (id tgt : Nat) (c : String) :
    ((db.notes.map (fun n =>
        if n.id == tgt then { n with content := c, updated_at := db.now }
        else n)).any (fun n => n.id == id)) = noteExists db id := by
  unfold noteExists
  rw [List.any_map]
  congr 1
  funext n
  by_cases h : n.id = tgt <;> simp [h]

/-- The tag-replacement loop cannot hit its foreign-key failure when the
note exists. -/
theorem applyTags_ok_of_exists (id : Nat) (l : List TagInput) :
    ∀ db, noteExists db id = true → ∃ db', applyTags db id l = .ok db' := by
  induction l with
  | nil => intro db _; exact ⟨db, rfl⟩
  | cons ti rest ih =>
    intro db h
    have h1 : noteExists (upsertTag db ti.name ti.source).1 id = true := by
      unfold noteExists at h ⊢
      rw [(upsertTag_frame db ti.name ti.source).1]
      exact h
    have h2 : noteExists (linkNoteTag (upsertTag db ti.name ti.source).1 id
        (upsertTag db ti.name ti.source).2.id) id = true := by
      unfold noteExists at h1 ⊢
      rw [(linkNoteTag_frame _ _ _).1]
      exact h1
    obtain ⟨db', hdb'⟩ := ih _ h2
    refine ⟨db', ?_⟩
    simp only [applyTags, h1, if_true]
    exact hdb'

/-- On an existing note, the content branch of `updateNote` succeeds and
its effect is exactly: rewrite the live content, append the
`MAX(version)+1` snapshot, and copy the live links onto it. -/
theorem applyContentUpdate_ok (db : DB) (id : Nat) (c : String)
    (h : noteExists db id = true) :
    applyContentUpdate db id c = .ok
      { notes := db.notes.map (fun n =>
          if n.id == id then { n with content := c, updated_at := db.now }
          else n)
      , tags := db.tags
      , note_tags := db.note_tags
      , note_versions := db.note_versions ++
          [{ id := db.nextNvId, note_id := id
           , version := maxVersion0 db id + 1, content := c
           , created_at := db.now }]
      , note_version_tags := db.note_version_tags ++
          (db.note_tags.filter (fun nt => nt.note_id == id)).map
            (fun nt => ⟨db.nextNvId, nt.tag_id⟩)
      , nextNoteId := db.nextNoteId
      , nextTagId := db.nextTagId
      , nextNvId := db.nextNvId + 1
      , now := db.now } := by
  unfold applyContentUpdate
  have hex : noteExists
      { db with notes := db.notes.map (fun n =>
          if n.id == id then { n with content := c, updated_at := db.now }
          else n) } id = true := by
    unfold noteExists
    simp only
    rw [noteExists_after_content db id id c]
    exact h
  simp only [hex, if_true]
  unfold copyTagsToVersion
  rfl

-- ===========================================================================
-- C1: user isolation of data operations
-- ===========================================================================

/-- A store in the state described by the claim's scenario: note 1 was
created by user A, note 2 by user B.  The schema of `init.sql` cannot even
record the ownership — `notes` has no `user_id` column. -/
def c1DB : DB :=
  { notes := [ { id := 1, content := "user A private note", created_at := 0, updated_at := 0 }
             , { id := 2, content := "user B note", created_at := 1, updated_at := 1 } ]
  , tags := []
  , note_tags := []
  , note_versions := [ { id := 1, note_id := 1, version := 1, content := "user A private note", created_at := 0 }
                     , { id := 2, note_id := 2, version := 1, content := "user B note", created_at := 1 } ]
  , note_version_tags := []
  , nextNoteId := 3, nextTagId := 1, nextNvId := 3, now := 2 }

/-- C1: the claim fails on the code.  `getNoteById` and `deleteNote` (like
every data operation in `notes.ts`) take only the raw row id — there is no
user identity in their signatures and no `user_id` column in the schema —
so a session of user B that supplies note 1's id reads user A's content
and deletes user A's note. -/
theorem c1_data_access_not_user_scoped :
    ((getNoteById c1DB 1).map (fun p => p.content) = some "user A private note") ∧
    (deleteNote c1DB 1).2 = true ∧
    ((deleteNote c1DB 1).1.notes.map (fun n => n.id) = [2]) := by
  decide

-- ===========================================================================
-- C2: no-op edit guard
-- ===========================================================================

/-- A store holding one note "Buy milk" with its single version. -/
def c2DB : DB := (createNote false false emptyDB "Buy milk").1

/-- C2 fails on the code: `updateNote` has no comparison of the new
content with the current content — re-submitting the identical content
"Buy milk" inserts a second version row with the same text. -/
theorem c2_noop_edit_creates_version :
    (versionsOf c2DB 1).map (fun v => (v.version, v.content)) =
      [(1, "Buy milk")] ∧
    (versionsOf (updateNote c2DB 1 { content := some "Buy milk" }).1 1).map
        (fun v => (v.version, v.content)) =
      [(1, "Buy milk"), (2, "Buy milk")] := by
  decide

/-- C2 amended: whenever `updateNote` is called with `content` provided it
appends a new version numbered `MAX(version)+1` — including when the new
content equals the current content; no no-op guard exists in the
operation. -/
theorem c2_update_with_content_always_versions (db : DB) (id : Nat)
    (c : String) (data : UpdateNoteRequest)
    (hc : data.content = some c) (hex : noteExists db id = true) :
    (versionsOf (updateNote db id data).1 id).map (fun v => v.version) =
      (versionsOf db id).map (fun v => v.version) ++ [maxVersion0 db id + 1] := by
  have hstep := applyContentUpdate_ok db id c hex
  unfold updateNote
  rw [hc]
  simp only [hstep]
  have hfilter :
      ∀ dbx : DB, dbx.note_versions =
          db.note_versions ++
            [{ id := db.nextNvId, note_id := id
             , version := maxVersion0 db id + 1, content := c
             , created_at := db.now }] →
        (versionsOf dbx id).map (fun v => v.version) =
          (versionsOf db id).map (fun v => v.version) ++ [maxVersion0 db id + 1] := by
    intro dbx hx
    unfold versionsOf
    rw [hx, List.filter_append]
    simp
  cases htags : data.tags with
  | none =>
    simp only
    exact hfilter _ rfl
  | some l =>
    simp only
    cases happ : applyTags (clearNoteTags _ id) id l with
    | error e =>
      exfalso
      -- the tag loop cannot hit its foreign-key failure: the note exists
      have hex0 : noteExists (clearNoteTags
          { notes := db.notes.map (fun n =>
              if n.id == id then { n with content := c, updated_at := db.now }
              else n)
          , tags := db.tags
          , note_tags := db.note_tags
          , note_versions := db.note_versions ++
              [{ id := db.nextNvId, note_id := id
               , version := maxVersion0 db id + 1, content := c
               , created_at := db.now }]
          , note_version_tags := db.note_version_tags ++
              (db.note_tags.filter (fun nt => nt.note_id == id)).map
                (fun nt => ⟨db.nextNvId, nt.tag_id⟩)
          , nextNoteId := db.nextNoteId
          , nextTagId := db.nextTagId
          , nextNvId := db.nextNvId + 1
          , now := db.now } id) id = true := by
        unfold clearNoteTags noteExists
        simp only
        rw [noteExists_after_content db id id c]
        exact hex
      obtain ⟨db', hdb'⟩ := applyTags_ok_of_exists id l _ hex0
      rw [hdb'] at happ
      cases happ
    | ok db2 =>
      simp only
      have hfr := applyTags_frame id l _ _ happ
      refine hfilter db2 ?_
      rw [hfr.2.1]
      unfold clearNoteTags
      simp

/-- Witness for the amended C2 at a concrete input: updating note 1 of
`c2DB` with its current text appends version 2. -/
theorem c2_update_with_content_always_versions_witness :
    (versionsOf (updateNote c2DB 1 { content := some "Buy milk" }).1 1).map
        (fun v => v.version) =
      (versionsOf c2DB 1).map (fun v => v.version) ++ [maxVersion0 c2DB 1 + 1] :=
  c2_update_with_content_always_versions c2DB 1 "Buy milk"
    { content := some "Buy milk" } rfl (by decide)

-- ===========================================================================
-- C3: per-user tag scoping
-- ===========================================================================

/-- A store in the state of the claim's scenario: note 1 belongs to user A
and note 2 to user B (ownership the schema cannot record — `tags` has no
`user_id` column and `name` is globally `UNIQUE`). -/
def c3DB : DB :=
  { notes := [ { id := 1, content := "A note", created_at := 0, updated_at := 0 }
             , { id := 2, content := "B note", created_at := 1, updated_at := 1 } ]
  , tags := []
  , note_tags := []
  , note_versions := [ { id := 1, note_id := 1, version := 1, content := "A note", created_at := 0 }
                     , { id := 2, note_id := 2, version := 1, content := "B note", created_at := 1 } ]
  , note_version_tags := []
  , nextNoteId := 3, nextTagId := 1, nextNvId := 3, now := 2 }

/-- C3 fails on the code: the `tags` table of `init.sql` is unique on
`name` alone and `addTagToNote` upserts with `ON CONFLICT (name)`, so when
the claim's two users each add a tag named "personal" the second request
resolves to the *same* shared row instead of a second per-user row — a
single tag row ends up linked to both users' notes. -/
theorem c3_tag_namespace_is_global :
    (((addTagToNote ((addTagToNote c3DB 1 "personal" "Self").1) 2 "Personal" "Self").1).tags.map
        (fun t => (t.id, t.name)) = [(1, "personal")]) ∧
    ((addTagToNote ((addTagToNote c3DB 1 "personal" "Self").1) 2 "Personal" "Self").1).note_tags =
      [⟨1, 1⟩, ⟨2, 1⟩] := by
  decide

-- ===========================================================================
-- C4: atomic note + version-1 creation
-- ===========================================================================

/-- C4: `createNote` runs both inserts in one transaction.  Whatever the
fault pattern, either the call fails and the store is exactly as before
(no orphan note, no orphan version), or it succeeds and the new note has
exactly one version, numbered 1, carrying the same content, with an empty
live tag set. -/
theorem c4_createNote_atomic (f1 f2 : Bool) (db : DB) (c : String)
    (h : WF db) :
    (∀ e, (createNote f1 f2 db c).2 = .error e → (createNote f1 f2 db c).1 = db) ∧
    (∀ p, (createNote f1 f2 db c).2 = .ok p →
      (versionsOf (createNote f1 f2 db c).1 p.id).map
          (fun v => (v.version, v.content)) = [(1, c)] ∧
      tagsOfNote (createNote f1 f2 db c).1 p.id = [] ∧
      ((createNote f1 f2 db c).1.notes.filter (fun n => n.id == p.id)).map
          (fun n => n.content) = [c]) := by
  obtain ⟨hnotes, -, hver, hnt, -, -, -⟩ := h
  unfold createNote
  cases f1 with
  | true => exact ⟨fun _ _ => rfl, fun p hp => by cases hp⟩
  | false =>
    cases f2 with
    | true => exact ⟨fun _ _ => rfl, fun p hp => by cases hp⟩
    | false =>
      refine ⟨(fun e he => by simp at he), fun p hp => ?_⟩
      simp only [Bool.false_eq_true, if_false, Except.ok.injEq] at hp
      subst hp
      simp only [Bool.false_eq_true, if_false]
      refine ⟨?_, ?_, ?_⟩
      · unfold versionsOf
        rw [List.filter_append]
        have hnil : db.note_versions.filter
            (fun v => v.note_id == db.nextNoteId) = [] := by
          rw [List.filter_eq_nil_iff]
          intro v hv
          have := (hver v hv).2
          simp only [beq_iff_eq]
          omega
        rw [hnil]
        simp
      · unfold tagsOfNote
        rw [List.filter_eq_nil_iff]
        intro t _
        simp only [List.any_eq_true, Bool.and_eq_true, beq_iff_eq,
          not_exists, not_and]
        intro nt hnt'
        intro hcon
        have := hnt nt hnt'
        omega
      · rw [List.filter_append]
        have hnil : db.notes.filter (fun n => n.id == db.nextNoteId) = [] := by
          rw [List.filter_eq_nil_iff]
          intro n hn
          have := hnotes n hn
          simp only [beq_iff_eq]
          omega
        rw [hnil]
        simp

/-- Witness for C4 at a concrete input: a successful creation on a
one-note store, and a faulted creation leaving the store untouched. -/
theorem c4_createNote_atomic_witness :
    WF c2DB ∧
    ((versionsOf (createNote false false c2DB "second note").1 2).map
        (fun v => (v.version, v.content)) = [(1, "second note")] ∧
      (createNote false true c2DB "second note").1 = c2DB) := by
  have h : WF c2DB := by decide
  refine ⟨h, ?_, ?_⟩
  · have := (c4_createNote_atomic false false c2DB "second note" h).2
      { id := 2, content := "second note", created_at := 0, updated_at := 0
      , current_version := 1, tags := [] } rfl
    exact this.1
  · exact (c4_createNote_atomic false true c2DB "second note" h).1 () rfl

/-- Characterisation of the upsert: the returned row carries the lowercased
name, is in the resulting table, and the table gains at most that row. -/
theorem upsertTag_tagSpec (db : DB) (name source : String) :
    (upsertTag db name source).2.name = lowerStr name ∧
    (upsertTag db name source).2 ∈ (upsertTag db name source).1.tags ∧
    (∀ u, u ∈ (upsertTag db name source).1.tags ↔
      u ∈ db.tags ∨ u = (upsertTag db name source).2) := by
  unfold upsertTag
  rcases h : db.tags.find? (fun t => t.name == lowerStr name) with _ | t
  · simp only [h]
    refine ⟨by simp, by simp, ?_⟩
    intro u
    simp [List.mem_append]
  · simp only [h]
    have hmem := List.mem_of_find?_eq_some h
    have hname : t.name = lowerStr name := by
      have := List.find?_some h
      simpa using this
    refine ⟨hname, hmem, ?_⟩
    intro u
    constructor
    · exact Or.inl
    · rintro (hu | rfl)
      · exact hu
      · exact hmem

/-- The upsert preserves well-formedness of the tag table (id bound and
id uniqueness). -/
theorem upsertTag_wfTags (db : DB) (name source : String)
    (hb : ∀ t ∈ db.tags, t.id < db.nextTagId)
    (hn : (db.tags.map (·.id)).Nodup) :
    (∀ t ∈ (upsertTag db name source).1.tags,
        t.id < (upsertTag db name source).1.nextTagId) ∧
    ((upsertTag db name source).1.tags.map (·.id)).Nodup := by
  unfold upsertTag
  rcases h : db.tags.find? (fun t => t.name == lowerStr name) with _ | t
  · simp only [h]
    constructor
    · intro t ht
      rcases List.mem_append.mp ht with ht | ht
      · exact Nat.lt_succ_of_lt (hb t ht)
      · simp at ht
        subst ht
        exact Nat.lt_succ_self _
    · rw [List.map_append, List.nodup_append]
      refine ⟨hn, by simp, ?_⟩
      intro a ha hcon
      simp at hcon
      subst hcon
      obtain ⟨t, ht, hid⟩ := List.mem_map.mp ha
      have := hb t ht
      omega
  · simpa [h] using ⟨hb, hn⟩

/-- Membership after the conflict-tolerant link insert: the table holds a
row iff it held it before or the row is the (possibly pre-existing) new
link. -/
theorem linkNoteTag_mem (db : DB) (noteId tagId : Nat) (x : NoteTagRow) :
    x ∈ (linkNoteTag db noteId tagId).note_tags ↔
      x ∈ db.note_tags ∨ x = ⟨noteId, tagId⟩ := by
  unfold linkNoteTag
  split
  · rename_i hany
    constructor
    · exact Or.inl
    · rintro (hx | rfl)
      · exact hx
      · obtain ⟨nt, hnt, hcond⟩ := List.any_eq_true.mp hany
        simp only [Bool.and_eq_true, beq_iff_eq] at hcond
        obtain ⟨h1, h2⟩ := hcond
        cases nt
        simp only at h1 h2
        subst h1
        subst h2
        exact hnt
  · simp [List.mem_append]

/-- Folding `max` with any seed. -/
theorem foldr_max_init (l : List Nat) (a : Nat) :
    l.foldr max a = max (l.foldr max 0) a := by
  induction l with
  | nil => simp
  | cons x xs ih => simp [List.foldr_cons, ih, Nat.max_assoc]

/-- The maximum of `1, …, k` is `k`. -/
theorem range'_foldr_max (k : Nat) : (List.range' 1 k).foldr max 0 = k := by
  induction k with
  | zero => rfl
  | succ k ih =>
    have hc := @List.range'_concat 1 1 k
    simp only [Nat.one_mul] at hc
    rw [hc, List.foldr_append]
    simp only [List.foldr_cons, List.foldr_nil]
    rw [foldr_max_init, ih]
    omega

/-- `MAX(version)` as a fold over the projected version numbers. -/
theorem maxVersion0_eq_foldr (db : DB) (id : Nat) :
    maxVersion0 db id = ((versionsOf db id).map (fun v => v.version)).foldr max 0 := by
  unfold maxVersion0
  rw [List.foldr_map]

/-- The tag loop keeps the tag table well-formed (id bound and id
uniqueness). -/
theorem applyTags_wf (noteId : Nat) (l : List TagInput) :
    ∀ db db', applyTags db noteId l = .ok db' →
      (∀ t ∈ db.tags, t.id < db.nextTagId) →
      ((db.tags.map (·.id)).Nodup) →
      ((∀ t ∈ db'.tags, t.id < db'.nextTagId) ∧
       ((db'.tags.map (·.id)).Nodup)) := by
  induction l with
  | nil =>
    intro db db' h hb hn
    simp only [applyTags] at h
    cases h
    exact ⟨hb, hn⟩
  | cons ti rest ih =>
    intro db db' h hb hn
    simp only [applyTags] at h
    split at h
    · have lfr := linkNoteTag_frame (upsertTag db ti.name ti.source).1 noteId
        (upsertTag db ti.name ti.source).2.id
      have hwf1 := upsertTag_wfTags db ti.name ti.source hb hn
      have hb2 : ∀ t ∈ (linkNoteTag (upsertTag db ti.name ti.source).1 noteId
          (upsertTag db ti.name ti.source).2.id).tags,
          t.id < (linkNoteTag (upsertTag db ti.name ti.source).1 noteId
            (upsertTag db ti.name ti.source).2.id).nextTagId := by
        rw [lfr.2.1, lfr.2.2.2.2.2.1]
        exact hwf1.1
      have hn2 : ((linkNoteTag (upsertTag db ti.name ti.source).1 noteId
          (upsertTag db ti.name ti.source).2.id).tags.map (·.id)).Nodup := by
        rw [lfr.2.1]
        exact hwf1.2
      exact ih _ _ h hb2 hn2
    · cases h

/-- The tag loop only ever adds links pointing at the given (existing)
note. -/
theorem applyTags_links (noteId : Nat) (l : List TagInput) :
    ∀ db db', applyTags db noteId l = .ok db' →
      ∀ nt ∈ db'.note_tags, nt ∈ db.note_tags ∨
        (nt.note_id = noteId ∧ noteExists db noteId = true) := by
  induction l with
  | nil =>
    intro db db' h nt hnt
    simp only [applyTags] at h
    cases h
    exact Or.inl hnt
  | cons ti rest ih =>
    intro db db' h nt hnt
    simp only [applyTags] at h
    split at h
    · rename_i hex1
      have hfr := upsertTag_frame db ti.name ti.source
      have hexdb : noteExists db noteId = true := by
        unfold noteExists at hex1 ⊢
        rw [hfr.1] at hex1
        exact hex1
      rcases ih _ _ h nt hnt with hmem | hbranch
      · rw [linkNoteTag_mem] at hmem
        rcases hmem with hmem | rfl
        · rw [hfr.2.1] at hmem
          exact Or.inl hmem
        · exact Or.inr ⟨rfl, hexdb⟩
      · exact Or.inr ⟨hbranch.1, hexdb⟩
    · cases h

-- ===========================================================================
-- C6: copy-on-write tag snapshots
-- ===========================================================================

/-- On an existing note, a content-carrying `updateNote` succeeds, and the
resulting store differs from the input exactly by the content rewrite, the
appended `MAX+1` version row and its copied tag links (the optional tag
branch further touching only `tags`/`note_tags`). -/
theorem updateNote_with_content (db : DB) (id : Nat) (c : String)
    (tagsReq : Option (List TagInput)) (hex : noteExists db id = true) :
    ∃ db2,
      updateNote db id { content := some c, tags := tagsReq } =
        (db2, .ok (getNoteById db2 id)) ∧
      db2.notes = db.notes.map (fun n =>
        if n.id == id then { n with content := c, updated_at := db.now }
        else n) ∧
      db2.note_versions = db.note_versions ++
        [{ id := db.nextNvId, note_id := id
         , version := maxVersion0 db id + 1, content := c
         , created_at := db.now }] ∧
      db2.note_version_tags = db.note_version_tags ++
        (db.note_tags.filter (fun nt => nt.note_id == id)).map
          (fun nt => ⟨db.nextNvId, nt.tag_id⟩) ∧
      db2.nextNoteId = db.nextNoteId ∧
      db2.nextNvId = db.nextNvId + 1 ∧
      ((∀ t ∈ db.tags, t.id < db.nextTagId) → (db.tags.map (·.id)).Nodup →
        (∀ t ∈ db2.tags, t.id < db2.nextTagId) ∧
        (db2.tags.map (·.id)).Nodup) ∧
      (∀ nt ∈ db2.note_tags, nt ∈ db.note_tags ∨ nt.note_id = id) := by
  have hstep := applyContentUpdate_ok db id c hex
  unfold updateNote
  simp only [hstep]
  cases htags : tagsReq with
  | none =>
    exact ⟨_, rfl, rfl, rfl, rfl, rfl, rfl, fun hb hn => ⟨hb, hn⟩,
      fun nt hnt => Or.inl hnt⟩
  | some l =>
    simp only
    have hex0 : noteExists (clearNoteTags
        { notes := db.notes.map (fun n =>
            if n.id == id then { n with content := c, updated_at := db.now }
            else n)
        , tags := db.tags
        , note_tags := db.note_tags
        , note_versions := db.note_versions ++
            [{ id := db.nextNvId, note_id := id
             , version := maxVersion0 db id + 1, content := c
             , created_at := db.now }]
        , note_version_tags := db.note_version_tags ++
            (db.note_tags.filter (fun nt => nt.note_id == id)).map
              (fun nt => ⟨db.nextNvId, nt.tag_id⟩)
        , nextNoteId := db.nextNoteId
        , nextTagId := db.nextTagId
        , nextNvId := db.nextNvId + 1
        , now := db.now } id) id = true := by
      unfold clearNoteTags noteExists
      simp only
      rw [noteExists_after_content db id id c]
      exact hex
    obtain ⟨db', hdb'⟩ := applyTags_ok_of_exists id l _ hex0
    rw [hdb']
    simp only
    have hfr := applyTags_frame id l _ _ hdb'
    refine ⟨db', rfl, ?_, ?_, ?_, ?_, ?_, ?_, ?_⟩
    · rw [hfr.1]
      unfold clearNoteTags
      rfl
    · rw [hfr.2.1]
      unfold clearNoteTags
      rfl
    · rw [hfr.2.2.1]
      unfold clearNoteTags
      rfl
    · rw [hfr.2.2.2.1]
      unfold clearNoteTags
      rfl
    · rw [hfr.2.2.2.2.1]
      unfold clearNoteTags
      rfl
    · intro hb hn
      exact applyTags_wf id l _ _ hdb' hb hn
    · intro nt hnt
      rcases applyTags_links id l _ _ hdb' nt hnt with hmem | hbranch
      · exact Or.inl (List.mem_filter.mp hmem).1
      · exact Or.inr hbranch.1

/-- C6: after a content edit the new version's tag-link set equals the
note's live tag-link set exactly as it was before the call — also when the
same call supplies a replacement tag list — and the link set of every
pre-existing version row is untouched. -/
theorem c6_version_snapshot_is_pre_edit_tags (db : DB) (id : Nat)
    (c : String) (tagsReq : Option (List TagInput)) (h : WF db)
    (hex : noteExists db id = true) :
    (∀ tid, (⟨db.nextNvId, tid⟩ : NoteVersionTagRow) ∈
        (updateNote db id { content := some c, tags := tagsReq }).1.note_version_tags ↔
      (⟨id, tid⟩ : NoteTagRow) ∈ db.note_tags) ∧
    (∀ v ∈ db.note_versions,
      (updateNote db id { content := some c, tags := tagsReq }).1.note_version_tags.filter
          (fun x => x.note_version_id == v.id) =
        db.note_version_tags.filter (fun x => x.note_version_id == v.id)) := by
  obtain ⟨-, -, hver, -, hnvt, -, -⟩ := h
  obtain ⟨db2, heq, -, -, hnvt2⟩ := updateNote_with_content db id c tagsReq hex
  rw [heq]
  simp only [hnvt2]
  constructor
  · intro tid
    rw [List.mem_append]
    constructor
    · rintro (hold | hcopy)
      · exact (Nat.lt_irrefl _ (hnvt _ hold)).elim
      · obtain ⟨nt, hnt, hmk⟩ := List.mem_map.mp hcopy
        obtain ⟨hmem, hid⟩ := List.mem_filter.mp hnt
        cases hmk
        cases nt
        simp only [beq_iff_eq] at hid
        subst hid
        exact hmem
    · intro hmem
      refine Or.inr (List.mem_map.mpr ⟨⟨id, tid⟩, List.mem_filter.mpr ⟨hmem, by simp⟩, rfl⟩)
  · intro v hv
    rw [List.filter_append]
    have : ((db.note_tags.filter (fun nt => nt.note_id == id)).map
        (fun nt => (⟨db.nextNvId, nt.tag_id⟩ : NoteVersionTagRow))).filter
          (fun x => x.note_version_id == v.id) = [] := by
      rw [List.filter_eq_nil_iff]
      intro x hx
      obtain ⟨nt, -, hmk⟩ := List.mem_map.mp hx
      cases hmk
      have := (hver v hv).1
      simp only [beq_iff_eq]
      omega
    rw [this, List.append_nil]

/-- A store holding one note that already carries the tag "shopping". -/
def c6DB : DB :=
  { notes := [ { id := 1, content := "Buy milk", created_at := 0, updated_at := 0 } ]
  , tags := [ { id := 1, name := "shopping", source := "Self" } ]
  , note_tags := [ ⟨1, 1⟩ ]
  , note_versions := [ { id := 1, note_id := 1, version := 1, content := "Buy milk", created_at := 0 } ]
  , note_version_tags := []
  , nextNoteId := 2, nextTagId := 2, nextNvId := 2, now := 1 }

/-- Witness for C6 at a concrete input: an edit that simultaneously
replaces the tag list with ["work"] still snapshots the pre-edit tag
"shopping" (tag id 1) onto the new version, and version 1's (empty) link
set is untouched. -/
theorem c6_version_snapshot_is_pre_edit_tags_witness :
    WF c6DB ∧ noteExists c6DB 1 = true ∧
    ((⟨c6DB.nextNvId, 1⟩ : NoteVersionTagRow) ∈
        (updateNote c6DB 1 { content := some "Buy milk and eggs"
                           , tags := some [⟨"Work", "Self"⟩] }).1.note_version_tags ↔
      (⟨1, 1⟩ : NoteTagRow) ∈ c6DB.note_tags) := by
  refine ⟨by decide, by decide, ?_⟩
  exact (c6_version_snapshot_is_pre_edit_tags c6DB 1 "Buy milk and eggs"
    (some [⟨"Work", "Self"⟩]) (by decide) (by decide)).1 1

-- ===========================================================================
-- C10: tag-only updates wholesale-replace the live tag set
-- ===========================================================================

/-- A tag name currently linked to the given note: there is a tag row of
that name whose id the note's live link set references. -/
def LinkedName (db : DB) (noteId : Nat) (name : String) : Prop :=
  ∃ t ∈ db.tags, (⟨noteId, t.id⟩ : NoteTagRow) ∈ db.note_tags ∧ t.name = name

/-- One iteration of the tag loop (upsert then link) adds exactly the
lowercased input name to the note's linked names. -/
theorem linkUpsert_linkedName (db : DB) (noteId : Nat) (ti : TagInput)
    (hb : ∀ t ∈ db.tags, t.id < db.nextTagId)
    (hn : (db.tags.map (·.id)).Nodup) (name : String) :
    LinkedName (linkNoteTag (upsertTag db ti.name ti.source).1 noteId
        (upsertTag db ti.name ti.source).2.id) noteId name ↔
      (LinkedName db noteId name ∨ name = lowerStr ti.name) := by
  have spec := upsertTag_tagSpec db ti.name ti.source
  have fr := upsertTag_frame db ti.name ti.source
  have lfr := linkNoteTag_frame (upsertTag db ti.name ti.source).1 noteId
    (upsertTag db ti.name ti.source).2.id
  have hn1 : ((upsertTag db ti.name ti.source).1.tags.map (·.id)).Nodup :=
    (upsertTag_wfTags db ti.name ti.source hb hn).2
  have uniq : ∀ t ∈ (upsertTag db ti.name ti.source).1.tags,
      t.id = (upsertTag db ti.name ti.source).2.id →
      t = (upsertTag db ti.name ti.source).2 := by
    intro t ht hid
    exact List.inj_on_of_nodup_map hn1 ht spec.2.1 hid
  constructor
  · rintro ⟨t, ht, hlink, hname⟩
    rw [lfr.2.1] at ht
    rw [linkNoteTag_mem] at hlink
    rcases hlink with hlink | heq
    · rw [fr.2.1] at hlink
      rcases (spec.2.2 t).mp ht with htdb | rfl
      · exact Or.inl ⟨t, htdb, hlink, hname⟩
      · exact Or.inr (by rw [← hname, spec.1])
    · simp only [NoteTagRow.mk.injEq] at heq
      have := uniq t ht heq.2
      subst this
      exact Or.inr (by rw [← hname, spec.1])
  · rintro (⟨t, ht, hlink, hname⟩ | rfl)
    · refine ⟨t, ?_, ?_, hname⟩
      · rw [lfr.2.1]
        exact (spec.2.2 t).mpr (Or.inl ht)
      · rw [linkNoteTag_mem]
        exact Or.inl (by rw [fr.2.1]; exact hlink)
    · refine ⟨(upsertTag db ti.name ti.source).2, ?_, ?_, spec.1⟩
      · rw [lfr.2.1]
        exact spec.2.1
      · rw [linkNoteTag_mem]
        exact Or.inr rfl

/-- Running the whole tag loop links exactly the previously linked names
plus the lowercased input names. -/
theorem applyTags_linkedNames (noteId : Nat) (l : List TagInput) :
    ∀ db db', applyTags db noteId l = .ok db' →
      (∀ t ∈ db.tags, t.id < db.nextTagId) →
      (db.tags.map (·.id)).Nodup →
      ∀ name, LinkedName db' noteId name ↔
        (LinkedName db noteId name ∨
          name ∈ l.map (fun ti => lowerStr ti.name)) := by
  induction l with
  | nil =>
    intro db db' h _ _ name
    simp only [applyTags] at h
    cases h
    simp
  | cons ti rest ih =>
    intro db db' h hb hn name
    simp only [applyTags] at h
    split at h
    · have hb1 := (upsertTag_wfTags db ti.name ti.source hb hn).1
      have hn1 := (upsertTag_wfTags db ti.name ti.source hb hn).2
      have lfr := linkNoteTag_frame (upsertTag db ti.name ti.source).1 noteId
        (upsertTag db ti.name ti.source).2.id
      have hb2 : ∀ t ∈ (linkNoteTag (upsertTag db ti.name ti.source).1 noteId
          (upsertTag db ti.name ti.source).2.id).tags,
          t.id < (linkNoteTag (upsertTag db ti.name ti.source).1 noteId
            (upsertTag db ti.name ti.source).2.id).nextTagId := by
        rw [lfr.2.1, lfr.2.2.2.2.2.1]
        exact hb1
      have hn2 : ((linkNoteTag (upsertTag db ti.name ti.source).1 noteId
          (upsertTag db ti.name ti.source).2.id).tags.map (·.id)).Nodup := by
        rw [lfr.2.1]
        exact hn1
      rw [ih _ _ h hb2 hn2 name,
        linkUpsert_linkedName db noteId ti hb hn name]
      simp only [List.map_cons, List.mem_cons]
      tauto
    · cases h

/-- After `DELETE FROM note_tags WHERE note_id = $1` the note has no
linked names. -/
theorem clearNoteTags_noLinks (db : DB) (id : Nat) (name : String) :
    ¬ LinkedName (clearNoteTags db id) id name := by
  rintro ⟨t, -, hlink, -⟩
  unfold clearNoteTags at hlink
  simp only at hlink
  obtain ⟨-, hcond⟩ := List.mem_filter.mp hlink
  simp at hcond

/-- C10: a tag-only `updateNote` (content undefined, tags provided) leaves
the note rows, version rows and version links untouched — no new version —
and wholesale-replaces the note's live linked names with exactly the
lowercased requested names. -/
theorem c10_tag_only_update_replaces_tags (db : DB) (id : Nat)
    (l : List TagInput) (h : WF db) (hex : noteExists db id = true) :
    (updateNote db id { content := none, tags := some l }).1.notes = db.notes ∧
    (updateNote db id { content := none, tags := some l }).1.note_versions =
      db.note_versions ∧
    (updateNote db id { content := none, tags := some l }).1.note_version_tags =
      db.note_version_tags ∧
    (∀ name,
      LinkedName (updateNote db id { content := none, tags := some l }).1 id name ↔
        name ∈ l.map (fun ti => lowerStr ti.name)) := by
  obtain ⟨-, -, -, -, -, htb, htn⟩ := h
  have hex0 : noteExists (clearNoteTags db id) id = true := hex
  obtain ⟨db', hdb'⟩ := applyTags_ok_of_exists id l _ hex0
  have hfr := applyTags_frame id l _ _ hdb'
  have hnames := applyTags_linkedNames id l _ _ hdb'
    (by unfold clearNoteTags; simpa using htb)
    (by unfold clearNoteTags; simpa using htn)
  unfold updateNote
  simp only [hdb']
  have hclear : ∀ name, ¬ LinkedName (clearNoteTags db id) id name :=
    clearNoteTags_noLinks db id
  refine ⟨?_, ?_, ?_, ?_⟩
  · rw [hfr.1]
    unfold clearNoteTags
    rfl
  · rw [hfr.2.1]
    unfold clearNoteTags
    rfl
  · rw [hfr.2.2.1]
    unfold clearNoteTags
    rfl
  · intro name
    rw [hnames name]
    constructor
    · rintro (hlink | hmem)
      · exact absurd hlink (hclear name)
      · exact hmem
    · exact Or.inr

/-- The tag-only replacement request of the C10 witness. -/
def c10Req : UpdateNoteRequest :=
  { content := none, tags := some [⟨"Work", "Self"⟩, ⟨"Home", "Self"⟩] }

/-- Witness for C10 at a concrete input: replacing c6DB's live tag
"shopping" by ["Work", "Home"] links exactly "work" and "home" while the
single version row survives unchanged. -/
theorem c10_tag_only_update_replaces_tags_witness :
    WF c6DB ∧ noteExists c6DB 1 = true ∧
    ((updateNote c6DB 1 c10Req).1.note_versions = c6DB.note_versions ∧
    (LinkedName (updateNote c6DB 1 c10Req).1 1 "work" ↔
      "work" ∈ ([⟨"Work", "Self"⟩, ⟨"Home", "Self"⟩] : List TagInput).map
        (fun ti => lowerStr ti.name))) := by
  refine ⟨by decide, by decide, ?_, ?_⟩
  · exact (c10_tag_only_update_replaces_tags c6DB 1
      [⟨"Work", "Self"⟩, ⟨"Home", "Self"⟩] (by decide) (by decide)).2.1
  · exact (c10_tag_only_update_replaces_tags c6DB 1
      [⟨"Work", "Self"⟩, ⟨"Home", "Self"⟩] (by decide) (by decide)).2.2.2 "work"

-- ===========================================================================
-- C8: OR semantics of the tag filter in getNotes
-- ===========================================================================

/-- C8: under a non-empty tag-name filter, every returned note currently
carries at least one of the named tags (the filter is `t.name = ANY($1)` —
OR set-membership, not AND), and when the `LIMIT`/`OFFSET` window covers
all matches the result contains exactly the matching notes. -/
theorem c8_tag_filter_or_semantics (db : DB) (f : NoteFilters)
    (res : List NoteRow) (n : NoteRow) (_hne : f.tags ≠ [])
    (hres : GetNotesResult db f res) :
    (n ∈ res → n ∈ db.notes ∧ matchesTagFilter db f.tags n = true) ∧
    (f.offset = 0 →
      (db.notes.filter (matchesTagFilter db f.tags)).length ≤ f.limit →
      n ∈ db.notes → matchesTagFilter db f.tags n = true → n ∈ res) := by
  obtain ⟨full, hperm, -, hr⟩ := hres
  constructor
  · intro hn
    have hsub : res.Sublist full := by
      rw [hr]
      exact ((full.drop f.offset).take_sublist f.limit).trans
        (full.drop_sublist f.offset)
    have : n ∈ full := hsub.subset hn
    have := hperm.mem_iff.mp this
    exact List.mem_filter.mp this
  · intro hoff hlen hmem hmatch
    have hlenfull : full.length ≤ f.limit := by
      rw [hperm.length_eq]
      exact hlen
    rw [hr, hoff, List.drop_zero, List.take_of_length_le hlenfull]
    exact hperm.mem_iff.mpr (List.mem_filter.mpr ⟨hmem, hmatch⟩)

/-- A store with two tagged notes, for the C8 witness. -/
def c8DB : DB :=
  { notes := [ { id := 1, content := "groceries", created_at := 0, updated_at := 0 }
             , { id := 2, content := "standup notes", created_at := 1, updated_at := 1 } ]
  , tags := [ { id := 1, name := "shopping", source := "Self" }
            , { id := 2, name := "work", source := "Self" } ]
  , note_tags := [ ⟨1, 1⟩, ⟨2, 2⟩ ]
  , note_versions := [ { id := 1, note_id := 1, version := 1, content := "groceries", created_at := 0 }
                     , { id := 2, note_id := 2, version := 1, content := "standup notes", created_at := 1 } ]
  , note_version_tags := []
  , nextNoteId := 3, nextTagId := 3, nextNvId := 3, now := 2 }

/-- The filter of the C8 witness: any of "shopping" or "work". -/
def c8Filters : NoteFilters := { tags := ["shopping", "work"] }

/-- Witness for C8 at a concrete input: the default-window query with
filter ["shopping", "work"] admits the result [note 2, note 1], note 1 is
in it, and it carries one of the named tags. -/
theorem c8_tag_filter_or_semantics_witness :
    c8Filters.tags ≠ [] ∧
    GetNotesResult c8DB c8Filters
      [ { id := 2, content := "standup notes", created_at := 1, updated_at := 1 }
      , { id := 1, content := "groceries", created_at := 0, updated_at := 0 } ] ∧
    ({ id := 1, content := "groceries", created_at := 0, updated_at := 0 } : NoteRow) ∈ c8DB.notes ∧
    matchesTagFilter c8DB c8Filters.tags
      { id := 1, content := "groceries", created_at := 0, updated_at := 0 } = true := by
  have hres : GetNotesResult c8DB c8Filters
      [ { id := 2, content := "standup notes", created_at := 1, updated_at := 1 }
      , { id := 1, content := "groceries", created_at := 0, updated_at := 0 } ] :=
    ⟨[ { id := 2, content := "standup notes", created_at := 1, updated_at := 1 }
     , { id := 1, content := "groceries", created_at := 0, updated_at := 0 } ],
      by decide, by decide, by decide⟩
  refine ⟨by decide, hres, ?_⟩
  have := (c8_tag_filter_or_semantics c8DB c8Filters
      [ { id := 2, content := "standup notes", created_at := 1, updated_at := 1 }
      , { id := 1, content := "groceries", created_at := 0, updated_at := 0 } ]
      { id := 1, content := "groceries", created_at := 0, updated_at := 0 }
      (by decide) hres).1 (by decide)
  exact this

-- ===========================================================================
-- C9: ordering and tie-breaking in getNotes
-- ===========================================================================

/-- The total order the claim asserts for the result: strictly earlier by
the chosen timestamp column, or equal timestamps broken by ascending note
id (insertion order). -/
def claimedOrder (sortBy sortOrder : String) (a b : NoteRow) : Bool :=
  (keyLe sortBy sortOrder a b && !(keyLe sortBy sortOrder b a)) ||
    (sortKeyOf sortBy a == sortKeyOf sortBy b && a.id < b.id)

/-- Two notes sharing one `created_at`/`updated_at` timestamp. -/
def c9DB : DB :=
  { notes := [ { id := 1, content := "first", created_at := 10, updated_at := 10 }
             , { id := 2, content := "second", created_at := 10, updated_at := 10 } ]
  , tags := [], note_tags := []
  , note_versions := [ { id := 1, note_id := 1, version := 1, content := "first", created_at := 10 }
                     , { id := 2, note_id := 2, version := 1, content := "second", created_at := 10 } ]
  , note_version_tags := []
  , nextNoteId := 3, nextTagId := 1, nextNvId := 3, now := 11 }

/-- C9 fails on the code: `getNotes` orders by `n.${sortBy} ${sortOrder}`
with no secondary sort key, so on `c9DB` (two notes with equal timestamps)
the id-descending enumeration [note 2, note 1] is a possible result of the
default query — the claimed id tie-break does not hold of it, hence
pagination order under ties is not deterministic. -/
theorem c9_counterexample_no_id_tiebreak :
    ¬ (∀ (db : DB) (f : NoteFilters) (res : List NoteRow),
        GetNotesResult db f res →
        res.Pairwise (fun a b => claimedOrder f.sortBy f.sortOrder a b = true)) := by
  intro hclaim
  have hres : GetNotesResult c9DB {}
      [ { id := 2, content := "second", created_at := 10, updated_at := 10 }
      , { id := 1, content := "first", created_at := 10, updated_at := 10 } ] :=
    ⟨[ { id := 2, content := "second", created_at := 10, updated_at := 10 }
     , { id := 1, content := "first", created_at := 10, updated_at := 10 } ],
      by decide, by decide, by decide⟩
  have := hclaim c9DB {} _ hres
  rw [List.pairwise_cons] at this
  have h21 := this.1
    { id := 1, content := "first", created_at := 10, updated_at := 10 }
    (by simp)
  revert h21
  decide

/-- C9 amended: every result `getNotes` can return is (non-strictly)
sorted by the chosen timestamp column in the requested direction; the
query provides no tie-break between equal timestamps, so nothing more can
be guaranteed. -/
theorem c9_sorted_by_requested_key (db : DB) (f : NoteFilters)
    (res : List NoteRow) (hres : GetNotesResult db f res) :
    res.Pairwise (fun a b => keyLe f.sortBy f.sortOrder a b = true) := by
  obtain ⟨full, -, hsort, hr⟩ := hres
  have hsub : res.Sublist full := by
    rw [hr]
    exact ((full.drop f.offset).take_sublist f.limit).trans
      (full.drop_sublist f.offset)
  exact hsort.sublist hsub

/-- Witness for the amended C9 at a concrete input: the tie-reversed
result on `c9DB` is still sorted by the (equal) timestamps. -/
theorem c9_sorted_by_requested_key_witness :
    List.Pairwise
      (fun a b => keyLe ({} : NoteFilters).sortBy ({} : NoteFilters).sortOrder a b = true)
      [ ({ id := 2, content := "second", created_at := 10, updated_at := 10 } : NoteRow)
      , { id := 1, content := "first", created_at := 10, updated_at := 10 } ] :=
  c9_sorted_by_requested_key c9DB {}
    [ { id := 2, content := "second", created_at := 10, updated_at := 10 }
    , { id := 1, content := "first", created_at := 10, updated_at := 10 } ]
    ⟨[ { id := 2, content := "second", created_at := 10, updated_at := 10 }
     , { id := 1, content := "first", created_at := 10, updated_at := 10 } ],
      by decide, by decide, by decide⟩

-- ===========================================================================
-- C7: account lockout after five failed authentications
-- ===========================================================================

/-- One failed authentication against a single-user store: the counter is
bumped and, exactly when it reaches `MAX_LOGIN_ATTEMPTS`, the lockout
stamp `now + LOCKOUT_DURATION` is written in the same call. -/
theorem auth_wrong_step (u : UserRow) (now : Nat) (email wrong : String)
    (hm : (u.email == lowerStr email) = true)
    (ha : u.is_active = true)
    (hl : u.locked_until = none)
    (hw : comparePassword wrong u.password_hash = false) :
    authenticateUser { users := [u], now := now } email wrong =
      ({ users := [{ u with
            failed_login_attempts := u.failed_login_attempts + 1
          , locked_until :=
              if u.failed_login_attempts + 1 ≥ MAX_LOGIN_ATTEMPTS
              then some (now + LOCKOUT_DURATION) else none }]
       , now := now }, .error .invalidCredentials) := by
  unfold authenticateUser
  simp only [List.find?, hm, ha, hl, hw, Bool.not_true, Bool.not_false,
    if_false, if_true, Bool.false_eq_true, ite_false]
  unfold incrementFailedLoginAttempts updateUser
  simp only [List.map, List.find?, beq_self_eq_true, if_true, ite_true]
  by_cases hge : u.failed_login_attempts + 1 ≥ MAX_LOGIN_ATTEMPTS <;>
    simp [hge, ha, hl]

/-- An authentication attempt while the lockout window is active fails
with the locked error — before the password is even compared. -/
theorem auth_locked_step (u : UserRow) (now t : Nat) (email pw : String)
    (hm : (u.email == lowerStr email) = true)
    (ha : u.is_active = true)
    (hl : u.locked_until = some t) (ht : t > now) :
    authenticateUser { users := [u], now := now } email pw =
      ({ users := [u], now := now },
        .error (.accountLocked (minutesLeftOf t now))) := by
  unfold authenticateUser
  simp only [List.find?, hm, ha, hl, ht, Bool.not_true, Bool.false_eq_true,
    if_false, if_true, ite_true, ite_false]

/-- The user row as it stands after a number of failed attempts, with the
given lockout stamp. -/
def afterFails (u : UserRow) (k : Nat) (lock : Option Nat) : UserRow :=
  { u with failed_login_attempts := k, locked_until := lock }

/-- C7: five consecutive password-mismatch calls drive the counter to 5
and — within that same fifth call — stamp a lockout `LOCKOUT_DURATION`
(15 minutes) ahead; after only four failures no lock is set; and the sixth
call, though it carries the correct password, fails with the
account-locked error reporting 15 minutes remaining. -/
theorem c7_lockout_after_five_failed_logins (u : UserRow) (now : Nat)
    (email pw wrong : String)
    (hm : (u.email == lowerStr email) = true)
    (ha : u.is_active = true)
    (hl : u.locked_until = none)
    (h0 : u.failed_login_attempts = 0)
    (_hpw : comparePassword pw u.password_hash = true)
    (hw : comparePassword wrong u.password_hash = false) :
    (((fun d => (authenticateUser d email wrong).1)^[5]
        { users := [u], now := now }).users.map
      (fun x => (x.failed_login_attempts, x.locked_until)) =
        [(5, some (now + LOCKOUT_DURATION))]) ∧
    (((fun d => (authenticateUser d email wrong).1)^[4]
        { users := [u], now := now }).users.map
      (fun x => x.locked_until) = [none]) ∧
    (authenticateUser ((fun d => (authenticateUser d email wrong).1)^[5]
        { users := [u], now := now }) email pw).2 =
      .error (.accountLocked 15) := by
  have s1 : (authenticateUser { users := [u], now := now } email wrong).1 =
      { users := [afterFails u 1 none], now := now } := by
    rw [auth_wrong_step u now email wrong hm ha hl hw]
    simp [afterFails, h0, MAX_LOGIN_ATTEMPTS]
  have s2 : (authenticateUser { users := [afterFails u 1 none], now := now }
      email wrong).1 =
      { users := [afterFails u 2 none], now := now } := by
    rw [auth_wrong_step (afterFails u 1 none) now email wrong hm ha rfl hw]
    simp [afterFails, MAX_LOGIN_ATTEMPTS]
  have s3 : (authenticateUser { users := [afterFails u 2 none], now := now }
      email wrong).1 =
      { users := [afterFails u 3 none], now := now } := by
    rw [auth_wrong_step (afterFails u 2 none) now email wrong hm ha rfl hw]
    simp [afterFails, MAX_LOGIN_ATTEMPTS]
  have s4 : (authenticateUser { users := [afterFails u 3 none], now := now }
      email wrong).1 =
      { users := [afterFails u 4 none], now := now } := by
    rw [auth_wrong_step (afterFails u 3 none) now email wrong hm ha rfl hw]
    simp [afterFails, MAX_LOGIN_ATTEMPTS]
  have s5 : (authenticateUser { users := [afterFails u 4 none], now := now }
      email wrong).1 =
      { users := [afterFails u 5 (some (now + LOCKOUT_DURATION))], now := now } := by
    rw [auth_wrong_step (afterFails u 4 none) now email wrong hm ha rfl hw]
    simp [afterFails, MAX_LOGIN_ATTEMPTS]
  have i4 : ((fun d => (authenticateUser d email wrong).1)^[4]
      { users := [u], now := now }) =
      { users := [afterFails u 4 none], now := now } := by
    simp only [Function.iterate_succ_apply', Function.iterate_zero_apply]
    rw [s1, s2, s3, s4]
  have i5 : ((fun d => (authenticateUser d email wrong).1)^[5]
      { users := [u], now := now }) =
      { users := [afterFails u 5 (some (now + LOCKOUT_DURATION))], now := now } := by
    simp only [Function.iterate_succ_apply', Function.iterate_zero_apply]
    rw [s1, s2, s3, s4, s5]
  refine ⟨?_, ?_, ?_⟩
  · rw [i5]
    rfl
  · rw [i4]
    rfl
  · rw [i5]
    rw [auth_locked_step (afterFails u 5 (some (now + LOCKOUT_DURATION))) now
      (now + LOCKOUT_DURATION) email pw hm ha rfl (by simp [LOCKOUT_DURATION])]
    simp only
    have hmin : minutesLeftOf (now + LOCKOUT_DURATION) now = 15 := by
      unfold minutesLeftOf LOCKOUT_DURATION
      rw [Nat.add_sub_cancel_left]
    rw [hmin]

/-- The account of the C7 witness. -/
def c7User : UserRow :=
  { id := 1, email := "alice@example.com", username := "alice"
  , password_hash := hashPassword "password1", created_at := 0
  , updated_at := 0, is_active := true, failed_login_attempts := 0
  , locked_until := none, last_login := none }

/-- Witness for C7 at a concrete input: five wrong-password logins against
`c7User` set the counter to 5 with a lockout stamp 900000 ms out, and the
sixth login with the correct password is rejected as locked. -/
theorem c7_lockout_after_five_failed_logins_witness :
    (((fun d => (authenticateUser d "Alice@example.com" "wrongpass9").1)^[5]
        { users := [c7User], now := 1000 }).users.map
      (fun x => (x.failed_login_attempts, x.locked_until)) =
        [(5, some (1000 + LOCKOUT_DURATION))]) ∧
    (authenticateUser ((fun d => (authenticateUser d "Alice@example.com" "wrongpass9").1)^[5]
        { users := [c7User], now := 1000 }) "Alice@example.com" "password1").2 =
      .error (.accountLocked 15) := by
  have h := c7_lockout_after_five_failed_logins c7User 1000
    "Alice@example.com" "password1" "wrongpass9"
    (by decide) (by decide) (by decide) (by decide) (by decide) (by decide)
  exact ⟨h.1, h.2.2⟩

-- ===========================================================================
-- C5: gapless version numbering under arbitrary create/update sequences
-- ===========================================================================

/-- The note-mutating operations the claim quantifies over. -/
inductive Op where
  | create (content : String)
  | update (id : Nat) (data : UpdateNoteRequest)

/-- Execute one operation (a failed call leaves the store unchanged, per
the transaction rollback). -/
def execOp (db : DB) : Op → DB
  | .create c => (createNote false false db c).1
  | .update id data => (updateNote db id data).1

/-- Run a sequence of operations against the freshly initialised store. -/
def runOps (ops : List Op) : DB := ops.foldl execOp emptyDB

/-- The invariant of the claim: every note's version numbers read
`1, 2, …, n` in insertion order — the set `{1, …, n}` with no gaps. -/
def VersionInv (db : DB) : Prop :=
  ∀ id, (versionsOf db id).map (fun v => v.version) =
    List.range' 1 (versionsOf db id).length

/-- The fault-free `createNote`, explicitly. -/
theorem createNote_noFault (db : DB) (c : String) :
    (createNote false false db c).1 =
      { db with
          notes := db.notes ++
            [{ id := db.nextNoteId, content := c
             , created_at := db.now, updated_at := db.now }]
        , note_versions := db.note_versions ++
            [{ id := db.nextNvId, note_id := db.nextNoteId, version := 1
             , content := c, created_at := db.now }]
        , nextNoteId := db.nextNoteId + 1
        , nextNvId := db.nextNvId + 1 } := rfl

/-- `createNote` preserves well-formedness. -/
theorem createNote_WF (db : DB) (c : String) (h : WF db) :
    WF (createNote false false db c).1 := by
  obtain ⟨h1, h2, h3, h4, h5, h6, h7⟩ := h
  rw [createNote_noFault]
  refine ⟨?_, ?_, ?_, ?_, ?_, ?_, ?_⟩
  · intro n hn
    rcases List.mem_append.mp hn with hn | hn
    · exact Nat.lt_succ_of_lt (h1 n hn)
    · simp at hn
      subst hn
      exact Nat.lt_succ_self _
  · simp only [List.map_append, List.map_cons, List.map_nil]
    rw [List.nodup_append]
    refine ⟨h2, by simp, ?_⟩
    intro a ha hcon
    simp at hcon
    subst hcon
    obtain ⟨n, hn, hid⟩ := List.mem_map.mp ha
    have := h1 n hn
    omega
  · intro v hv
    rcases List.mem_append.mp hv with hv | hv
    · exact ⟨Nat.lt_succ_of_lt (h3 v hv).1, Nat.lt_succ_of_lt (h3 v hv).2⟩
    · simp at hv
      subst hv
      exact ⟨Nat.lt_succ_self _, Nat.lt_succ_self _⟩
  · intro nt hnt
    exact Nat.lt_succ_of_lt (h4 nt hnt)
  · intro x hx
    exact Nat.lt_succ_of_lt (h5 x hx)
  · exact h6
  · exact h7

/-- `createNote` preserves the gapless-version invariant: the new note
starts at exactly `[1]`, others are untouched. -/
theorem createNote_VersionInv (db : DB) (c : String) (h : WF db)
    (hinv : VersionInv db) : VersionInv (createNote false false db c).1 := by
  obtain ⟨-, -, h3, -, -, -, -⟩ := h
  intro id
  rw [createNote_noFault]
  unfold VersionInv versionsOf at hinv
  unfold versionsOf
  simp only
  rw [List.filter_append]
  by_cases hid : id = db.nextNoteId
  · have hnil : db.note_versions.filter (fun v => v.note_id == id) = [] := by
      rw [List.filter_eq_nil_iff]
      intro v hv
      have := (h3 v hv).2
      simp only [beq_iff_eq]
      omega
    rw [hnil]
    simp [hid]
  · have hnil : (([⟨db.nextNvId, db.nextNoteId, 1, c, db.now⟩] :
        List NoteVersionRow).filter (fun v => v.note_id == id)) = [] := by
      rw [List.filter_eq_nil_iff]
      intro v hv
      simp only [List.mem_singleton] at hv
      subst hv
      simp only [beq_iff_eq]
      omega
    rw [hnil, List.append_nil]
    exact hinv id

/-- The content-update map keeps every note id fixed. -/
theorem contentUpdate_id (db : DB) (id : Nat) (c : String) (m : NoteRow) :
    ((fun n => if n.id == id
        then { n with content := c, updated_at := db.now } else n) m).id =
      m.id := by
  by_cases hm : m.id = id <;> simp [hm]

/-- `updateNote` preserves well-formedness and the gapless-version
invariant, whatever the request. -/
theorem updateNote_WF_inv (db : DB) (id : Nat) (data : UpdateNoteRequest)
    (h : WF db) (hinv : VersionInv db) :
    WF (updateNote db id data).1 ∧ VersionInv (updateNote db id data).1 := by
  obtain ⟨dc, dt⟩ := data
  cases dc with
  | some c =>
    by_cases hex : noteExists db id = true
    · obtain ⟨db2, heq, hnotes, hvers, hnvt, hnid, hnvid, htagswf, hlinks⟩ :=
        updateNote_with_content db id c dt hex
      have hfst : (updateNote db id { content := some c, tags := dt }).1 = db2 := by
        rw [heq]
      rw [hfst]
      obtain ⟨h1, h2, h3, h4, h5, h6, h7⟩ := h
      have hidlt : id < db.nextNoteId := by
        obtain ⟨n, hn, hneq⟩ := List.any_eq_true.mp hex
        have := h1 n hn
        simp only [beq_iff_eq] at hneq
        omega
      constructor
      · refine ⟨?_, ?_, ?_, ?_, ?_, ?_⟩
        · intro n hn
          rw [hnid]
          rw [hnotes] at hn
          obtain ⟨m, hm, rfl⟩ := List.mem_map.mp hn
          rw [contentUpdate_id]
          exact h1 m hm
        · rw [hnotes, List.map_map]
          have : ((fun n => n.id) ∘ (fun n => if n.id == id
              then { n with content := c, updated_at := db.now } else n)) =
            (fun n : NoteRow => n.id) := by
            funext m
            exact contentUpdate_id db id c m
          rw [this]
          exact h2
        · intro v hv
          rw [hnvid, hnid]
          rw [hvers] at hv
          rcases List.mem_append.mp hv with hv | hv
          · exact ⟨Nat.lt_succ_of_lt (h3 v hv).1, (h3 v hv).2⟩
          · simp at hv
            subst hv
            exact ⟨Nat.lt_succ_self _, hidlt⟩
        · intro nt hnt
          rw [hnid]
          rcases hlinks nt hnt with hmem | hid'
          · exact h4 nt hmem
          · omega
        · intro x hx
          rw [hnvid]
          rw [hnvt] at hx
          rcases List.mem_append.mp hx with hx | hx
          · exact Nat.lt_succ_of_lt (h5 x hx)
          · obtain ⟨nt, -, rfl⟩ := List.mem_map.mp hx
            exact Nat.lt_succ_self _
        · exact (htagswf h6 h7).imp (fun a => a) (fun a => a)
      · intro id'
        unfold VersionInv versionsOf at hinv
        unfold versionsOf
        rw [hvers, List.filter_append]
        by_cases hid' : id' = id
        · rw [hid']
          have hone : (([⟨db.nextNvId, id, maxVersion0 db id + 1, c, db.now⟩] :
              List NoteVersionRow).filter (fun v => v.note_id == id)) =
              [⟨db.nextNvId, id, maxVersion0 db id + 1, c, db.now⟩] := by
            simp
          rw [hone]
          have hk := hinv id
          have hmax : maxVersion0 db id =
              (db.note_versions.filter (fun v => v.note_id == id)).length := by
            rw [maxVersion0_eq_foldr]
            unfold versionsOf
            rw [hk]
            exact range'_foldr_max _
          rw [List.map_append, List.length_append]
          rw [hk, hmax]
          have hc := @List.range'_concat 1 1
            (db.note_versions.filter (fun v => v.note_id == id)).length
          simp only [Nat.one_mul] at hc
          simp only [List.map_cons, List.map_nil, List.length_cons,
            List.length_nil]
          rw [hc]
          rw [Nat.add_comm 1
            ((db.note_versions.filter (fun v => v.note_id == id)).length)]
        · have hnone : (([⟨db.nextNvId, id, maxVersion0 db id + 1, c, db.now⟩] :
              List NoteVersionRow).filter (fun v => v.note_id == id')) = [] := by
            rw [List.filter_eq_nil_iff]
            intro v hv
            simp only [List.mem_singleton] at hv
            subst hv
            simp only [beq_iff_eq]
            omega
          rw [hnone, List.append_nil]
          exact hinv id'
    · have hfst : updateNote db id { content := some c, tags := dt } =
          (db, .error ()) := by
        unfold updateNote
        have hbad : applyContentUpdate db id c = .error () := by
          unfold applyContentUpdate
          have hnoex : noteExists { db with notes := db.notes.map (fun n =>
              if n.id == id then { n with content := c, updated_at := db.now }
              else n) } id = false := by
            unfold noteExists
            simp only
            rw [noteExists_after_content db id id c]
            simpa using hex
          simp only [hnoex, Bool.false_eq_true, if_false]
        simp only [hbad]
      rw [hfst]
      exact ⟨h, hinv⟩
  | none =>
    cases dt with
    | none => exact ⟨h, hinv⟩
    | some l =>
      cases happ : applyTags (clearNoteTags db id) id l with
      | error e =>
        have hfst : updateNote db id { content := none, tags := some l } =
            (db, .error ()) := by
          unfold updateNote
          simp only [happ]
        rw [hfst]
        exact ⟨h, hinv⟩
      | ok db2 =>
        have hfst : (updateNote db id { content := none, tags := some l }).1 =
            db2 := by
          unfold updateNote
          simp only [happ]
        rw [hfst]
        have hfr := applyTags_frame id l _ _ happ
        obtain ⟨h1, h2, h3, h4, h5, h6, h7⟩ := h
        have hnotes2 : db2.notes = db.notes := by
          rw [hfr.1]
          unfold clearNoteTags
          rfl
        have hvers2 : db2.note_versions = db.note_versions := by
          rw [hfr.2.1]
          unfold clearNoteTags
          rfl
        have hnvt2 : db2.note_version_tags = db.note_version_tags := by
          rw [hfr.2.2.1]
          unfold clearNoteTags
          rfl
        have hnid2 : db2.nextNoteId = db.nextNoteId := by
          rw [hfr.2.2.2.1]
          unfold clearNoteTags
          rfl
        have hnvid2 : db2.nextNvId = db.nextNvId := by
          rw [hfr.2.2.2.2.1]
          unfold clearNoteTags
          rfl
        have htagswf := applyTags_wf id l _ _ happ
          (by unfold clearNoteTags; simpa using h6)
          (by unfold clearNoteTags; simpa using h7)
        constructor
        · refine ⟨?_, ?_, ?_, ?_, ?_, ?_⟩
          · rw [hnotes2, hnid2]
            exact h1
          · rw [hnotes2]
            exact h2
          · rw [hvers2, hnvid2, hnid2]
            exact h3
          · intro nt hnt
            rw [hnid2]
            rcases applyTags_links id l _ _ happ nt hnt with hmem | hbranch
            · refine h4 nt ?_
              unfold clearNoteTags at hmem
              exact (List.mem_filter.mp hmem).1
            · obtain ⟨rfl, hexc⟩ := hbranch
              have hexdb : noteExists db nt.note_id = true := by
                unfold clearNoteTags noteExists at hexc
                exact hexc
              obtain ⟨n, hn, hneq⟩ := List.any_eq_true.mp hexdb
              have := h1 n hn
              simp only [beq_iff_eq] at hneq
              omega
          · rw [hnvt2, hnvid2]
            exact h5
          · exact htagswf.imp (fun a => a) (fun a => a)
        · intro id'
          unfold VersionInv versionsOf at hinv
          unfold versionsOf
          rw [hvers2]
          exact hinv id'

/-- Every state reachable by a sequence of note operations is well-formed
and satisfies the gapless-version invariant. -/
theorem runOps_inv (ops : List Op) : WF (runOps ops) ∧ VersionInv (runOps ops) := by
  have hstart : WF emptyDB ∧ VersionInv emptyDB := by
    constructor
    · exact (by decide : WF emptyDB)
    · intro id
      rfl
  suffices hgen : ∀ db, WF db → VersionInv db →
      WF (ops.foldl execOp db) ∧ VersionInv (ops.foldl execOp db) from
    hgen emptyDB hstart.1 hstart.2
  induction ops with
  | nil => exact fun db hwf hiv => ⟨hwf, hiv⟩
  | cons op rest ih =>
    intro db hwf hiv
    simp only [List.foldl_cons]
    cases op with
    | create c =>
      exact ih _ (createNote_WF db c hwf) (createNote_VersionInv db c hwf hiv)
    | update id data =>
      exact ih _ (updateNote_WF_inv db id data hwf hiv).1
        (updateNote_WF_inv db id data hwf hiv).2

/-- C5: after any sequence of `createNote`/`updateNote` operations, every
note's version numbers read exactly `1, 2, …, n` — the set
`{1, …, count}` with no gaps (each content edit having been assigned
`MAX(version) + 1`). -/
theorem c5_version_numbers_gapless (ops : List Op) (id : Nat) :
    (versionsOf (runOps ops) id).map (fun v => v.version) =
      List.range' 1 (versionsOf (runOps ops) id).length :=
  (runOps_inv ops).2 id

end Omnirambles
